import Mathlib

/-!
Verification of the stroke-interpolation (tweening) engine of
`pattern-illustrator` (`animation.js`).

Numbers are modelled by `ℚ` (exact arithmetic; every JS float input of
interest is a rational).  The p5.js library primitive `dist` (Euclidean
distance, whose values are irrational square roots and hence not
representable in `ℚ`) is not code of this repository; every definition that
the source builds on it is therefore parametrised by an abstract distance
function `d : Point → Point → ℚ`.  The theorems assume of `d` only what is
true of Euclidean distance — nonnegativity, and `d p p = 0` — so each holds
in particular for the real implementation.  Witnesses instantiate `d` with
the concrete taxicab distance `taxiDist`, which also satisfies both.

Fallible computations (JS expressions that can throw, i.e. a property read
on `undefined` produced by an out-of-bounds array access) are modelled in
the `Option` monad: `none` means the original program throws.
-/

/-- A 2-D point, as the objects `{x, y}` of `animation.js`. -/
structure Point where
  x : ℚ
  y : ℚ
deriving DecidableEq, Repr

instance : Inhabited Point := ⟨⟨0, 0⟩⟩

/-- The `colHSB` record of a stroke.  The alpha channel `a` is optional
(JS strokes may or may not carry it), matching the `?? ` chains in the
source. -/
structure ColHSB where
  h : ℚ
  s : ℚ
  b : ℚ
  a : Option ℚ
deriving DecidableEq, Repr

/-- A stroke, as produced by the drawing UI and consumed by `animation.js`.
`opacity` is optional, matching `a.opacity ?? …` in the source. -/
structure Stroke where
  colHSB : ColHSB
  thickness : ℚ
  opacity : Option ℚ
  eraser : Bool
  points : List Point
deriving DecidableEq, Repr

instance : Inhabited Stroke :=
  ⟨{ colHSB := ⟨0, 0, 0, none⟩, thickness := 0, opacity := none,
     eraser := false, points := [] }⟩

/-- A stored drawing (keyframe): `storedDrawings[k].strokes`. -/
structure Drawing where
  strokes : List Stroke
deriving DecidableEq, Repr

instance : Inhabited Drawing := ⟨⟨[]⟩⟩

/-- p5.js `lerp(x, y, t) = x + (y - x) * t`. -/
def lerpQ (x y t : ℚ) : ℚ := x + (y - x) * t

/-- p5.js `constrain(n, low, high) = max(min(n, high), low)`. -/
def constrain (n lo hi : ℚ) : ℚ := max (min n hi) lo

/-- JS `x || dflt` on a number already known to be a number: `0` is the
only falsy rational (`NaN` does not arise in `ℚ`). -/
def jsOr (x dflt : ℚ) : ℚ := if x = 0 then dflt else x

/-- JS array indexing `l[i]` where the program immediately reads a property
of the result: an out-of-bounds access yields `undefined` and the property
read throws, modelled as `none`. -/
def jsIdxZ {α : Type} (l : List α) (i : ℤ) : Option α :=
  if i < 0 then none else l[i.toNat]?

/-- The sequential `for`-loop-and-push pattern of the source in the
`Option` monad: produce the list of results, or `none` as soon as one
iteration throws (JS aborts at the first thrown access). -/
def seqOpt {α β : Type} : List α → (α → Option β) → Option (List β)
  | [], _ => some []
  | a :: l, f => (f a).bind fun b => (seqOpt l f).bind fun bs => some (b :: bs)

/-- `centroidOf(points)` (animation.js lines 70–75): arithmetic mean of the
coordinates, `(0,0)` for an empty list. -/
def centroidOf (points : List Point) : Point :=
  if points.length = 0 then ⟨0, 0⟩
  else ⟨(points.map (·.x)).sum / points.length, (points.map (·.y)).sum / points.length⟩

/-- `lengthOf(points)` (lines 78–83): sum of `d` over consecutive pairs. -/
def lengthOf (d : Point → Point → ℚ) (points : List Point) : ℚ :=
  ((points.zip points.tail).map (fun pq => d pq.1 pq.2)).sum

/-- `strokeMatchCost(a, b)` (lines 86–92): centroid distance plus
`0.1 ×` the difference of the (floored-at-1) polyline lengths. -/
def strokeMatchCost (d : Point → Point → ℚ) (a b : Stroke) : ℚ :=
  d (centroidOf a.points) (centroidOf b.points) +
    |max 1 (lengthOf d a.points) - max 1 (lengthOf d b.points)| * (1 / 10)

/-- The inner loop of `matchStrokes` (lines 99–104): scan `B`'s indices in
order, skipping used ones, keeping the first strict minimum of the cost.
`none` models `bestJ = -1` (initial `bestC = Infinity`: any rational cost
beats `none`). -/
def bestCandidate (d : Point → Point → ℚ) (a : Stroke) (B : List Stroke)
    (used : List ℕ) : Option (ℕ × ℚ) :=
  (List.range B.length).foldl
    (fun best j =>
      if j ∈ used then best
      else
        let c := strokeMatchCost d a (B.getD j default)
        match best with
        | none => some (j, c)
        | some b0 => if c < b0.2 then some (j, c) else some b0)
    none

/-- The outer loop of `matchStrokes` (lines 95–106): fold over `A`'s
indices, appending a pair and marking the chosen `B` index used. -/
def matchGo (d : Point → Point → ℚ) (A B : List Stroke) :
    List (ℕ × ℕ) × List ℕ :=
  (List.range A.length).foldl
    (fun acc i =>
      match bestCandidate d (A.getD i default) B acc.2 with
      | some jc => (acc.1 ++ [(i, jc.1)], acc.2 ++ [jc.1])
      | none => acc)
    ([], [])

/-- The result record of `matchStrokes`. -/
structure MatchResult where
  pairs : List (ℕ × ℕ)
  unmatchedA : List ℕ
  unmatchedB : List ℕ
deriving DecidableEq, Repr

/-- `matchStrokes(A, B)` (lines 94–114). -/
def matchStrokes (d : Point → Point → ℚ) (A B : List Stroke) : MatchResult :=
  let pr := matchGo d A B
  { pairs := pr.1
  , unmatchedA := (List.range A.length).filter
      (fun i => ! (pr.1.any (fun p => p.1 == i)))
  , unmatchedB := (List.range B.length).filter
      (fun j => ! (pr.1.any (fun p => p.2 == j))) }

/-- `ghostFromStrokeLike(s)` (lines 117–122): 20 copies of the centroid,
thickness `0.001`, opacity `0`. -/
def ghostFromStrokeLike (s : Stroke) : Stroke :=
  { colHSB := s.colHSB, thickness := 1 / 1000, opacity := some 0,
    eraser := false, points := List.replicate 20 (centroidOf s.points) }

/-- The cumulative arc-length table `L` of `resamplePointsLocal`
(lines 129–131): `L[0] = 0`, `L[i] = L[i-1] + d(points[i-1], points[i])`. -/
def cumLen (d : Point → Point → ℚ) (points : List Point) : List ℚ :=
  (points.zip points.tail).scanl (fun acc pq => acc + d pq.1 pq.2) 0

/-- The `while (j < L.length && L[j] < t) j++` scan (line 140), with an
explicit fuel.  Each iteration requires `j < L.length` and increments `j`,
so from the start value `1` the loop runs at most `L.length - 1` times;
fuel `L.length` is therefore never exhausted. -/
def scanGo (L : List ℚ) (t : ℚ) : ℕ → ℕ → ℕ
  | 0, j => j
  | fuel + 1, j =>
      if j < L.length ∧ L.getD j 0 < t then scanGo L t fuel (j + 1) else j

/-- The scan of line 140 started, as in the source, at `j = 1`. -/
def scanIdx (L : List ℚ) (t : ℚ) : ℕ := scanGo L t L.length 1

/-- The body of the resampling loop (lines 138–145), producing output
sample `k` of `N`.  Array reads are `Option`-monadic. -/
def resampleAt (points : List Point) (L : List ℚ) (total : ℚ) (N k : ℕ) :
    Option Point :=
  let t := ((k : ℚ) / ((N : ℚ) - 1)) * total
  let j := scanIdx L t
  let i := max 1 j
  (L[i - 1]?).bind fun t0 =>
  (L[i]?).bind fun t1 =>
  (points[i - 1]?).bind fun p0 =>
  (points[i]?).bind fun p1 =>
    let seg := if t1 - t0 = 0 then (1 : ℚ) / 1000000000 else t1 - t0
    let u := (t - t0) / seg
    some ⟨lerpQ p0.x p1.x u, lerpQ p0.y p1.y u⟩

/-- `resamplePointsLocal(points, N)` (lines 125–148).  Fewer than 2 points:
a copy of the input.  `N` is clamped to at least 2.  Zero total length:
`N` copies of the first point.  Otherwise `N` evenly spaced samples. -/
def resamplePointsLocal (d : Point → Point → ℚ) (points : List Point)
    (N0 : ℕ) : Option (List Point) :=
  if points.length < 2 then some points
  else
    let N := max 2 N0
    let L := cumLen d points
    let total := L.getD (L.length - 1) 0
    if total = 0 then some (List.replicate N points.headI)
    else seqOpt (List.range N) (fun k => resampleAt points L total N k)

/-- `tweenTwoStrokes(a, b, t, N = 60)` (lines 150–169). -/
def tweenTwoStrokes (d : Point → Point → ℚ) (a b : Stroke) (t : ℚ)
    (N : ℕ := 60) : Option Stroke :=
  (resamplePointsLocal d a.points N).bind fun pa =>
  (resamplePointsLocal d b.points N).bind fun pb =>
  (seqOpt (List.range N) (fun j =>
      (pa[j]?).bind fun p =>
      (pb[j]?).bind fun q =>
        some ⟨lerpQ p.x q.x t, lerpQ p.y q.y t⟩)).map fun pts =>
  { colHSB :=
      { h := lerpQ a.colHSB.h b.colHSB.h t
      , s := lerpQ a.colHSB.s b.colHSB.s t
      , b := lerpQ a.colHSB.b b.colHSB.b t
      , a := some (lerpQ ((a.opacity.orElse fun _ => a.colHSB.a).getD 100)
                         ((b.opacity.orElse fun _ => b.colHSB.a).getD 100) t) }
  , thickness := lerpQ (jsOr a.thickness 4) (jsOr b.thickness 4) t
  , opacity := some (lerpQ (a.opacity.getD 100) (b.opacity.getD 100) t)
  , eraser := false
  , points := pts }

/-- `tweenDrawingsMulti(A, B, t)` (lines 171–187): filter erasers, match,
tween matched pairs at `N = 60`, ghost-tween unmatched at `N = 40`,
concatenate in source order. -/
def tweenDrawingsMulti (d : Point → Point → ℚ) (A B : List Stroke) (t : ℚ) :
    Option (List Stroke) :=
  let AA := A.filter (fun s => !s.eraser)
  let BB := B.filter (fun s => !s.eraser)
  let m := matchStrokes d AA BB
  (seqOpt m.pairs (fun p =>
      tweenTwoStrokes d (AA.getD p.1 default) (BB.getD p.2 default) t 60)).bind
    fun matched =>
  (seqOpt m.unmatchedA (fun ia =>
      let s := AA.getD ia default
      tweenTwoStrokes d s (ghostFromStrokeLike s) t 40)).bind
    fun ghostA =>
  (seqOpt m.unmatchedB (fun ib =>
      let s := BB.getD ib default
      tweenTwoStrokes d (ghostFromStrokeLike s) s t 40)).map
    fun ghostB =>
  matched ++ ghostA ++ ghostB

/-- The easing registry (lines 23–27). -/
def Easings.Linear (t : ℚ) : ℚ := t

/-- `EaseInOutCubic` (line 25). -/
def Easings.EaseInOutCubic (t : ℚ) : ℚ :=
  if t < 1 / 2 then 4 * t ^ 3 else 1 - (-2 * t + 2) ^ 3 / 2

/-- `EaseInOutQuad` (line 26). -/
def Easings.EaseInOutQuad (t : ℚ) : ℚ :=
  if t < 1 / 2 then 2 * t ^ 2 else 1 - (-2 * t + 2) ^ 2 / 2

/-- `getEase(name)` (lines 29–31): registry lookup with fallback to
`EaseInOutCubic`. -/
def getEase (name : String) : ℚ → ℚ :=
  if name = "Linear" then Easings.Linear
  else if name = "EaseInOutCubic" then Easings.EaseInOutCubic
  else if name = "EaseInOutQuad" then Easings.EaseInOutQuad
  else Easings.EaseInOutCubic

/-- The mutable clock state of the `Anim` object (lines 17–20). -/
structure AnimState where
  running : Bool
  startMs : ℚ
  durationMs : ℚ
deriving DecidableEq, Repr

/-- A JS value passed as `durationMs` to `start`, restricted to the shapes
relevant to `Number(x)` coercion: a number (possibly `NaN`), `undefined`,
or `null`. -/
inductive JSVal where
  | num (q : ℚ)
  | nanV
  | undef
  | nullV
deriving DecidableEq, Repr

/-- JS `Number(x)` on a `JSVal`; `none` is `NaN`
(`Number(undefined) = NaN`, `Number(null) = 0`). -/
def jsToNumber : JSVal → Option ℚ
  | .num q => some q
  | .nanV => none
  | .undef => none
  | .nullV => some 0

/-- JS `Number(v) || dflt`: the default is taken exactly when `Number(v)`
is falsy, i.e. `NaN` or `0`. -/
def jsNumOr (v : JSVal) (dflt : ℚ) : ℚ :=
  match jsToNumber v with
  | none => dflt
  | some q => if q = 0 then dflt else q

/-- `Anim.start(durationMs)` (lines 33–37).  `now` is the value of
`millis()` at the call. -/
def start (v : JSVal) (now : ℚ) (_st : AnimState) : AnimState :=
  { durationMs := jsNumOr v 10000, running := true, startMs := now }

/-- `tGlobal` of `drawFrame` (line 44). -/
def tGlobalOf (st : AnimState) (now : ℚ) : ℚ :=
  (now - st.startMs) / st.durationMs

/-- `segT = tGlobal * segments` with `segments = n - 1` (lines 55–56). -/
def segTOf (tGlobal : ℚ) (n : ℕ) : ℚ := tGlobal * ((n : ℚ) - 1)

/-- `i = Math.min(segments - 1, Math.floor(segT))` (line 57). -/
def segIndexOf (segT : ℚ) (n : ℕ) : ℤ := min ((n : ℤ) - 1 - 1) ⌊segT⌋

/-- What one `drawFrame` call hands to its `drawDrawing` callback:
nothing, the final keyframe's strokes verbatim, or a tweened stroke
list. -/
inductive FrameResult where
  | noop
  | final (strokes : List Stroke)
  | tweened (strokes : List Stroke)
deriving DecidableEq, Repr

/-- `Anim.drawFrame(storedDrawings, easeName, drawDrawing)` (lines 40–64):
returns what is drawn together with the updated clock state. -/
def drawFrame (d : Point → Point → ℚ) (st : AnimState) (now : ℚ)
    (storedDrawings : List Drawing) (easeName : String) :
    Option (FrameResult × AnimState) :=
  let n := storedDrawings.length
  if n < 2 then some (.noop, st)
  else
    let tGlobal := tGlobalOf st now
    if 1 ≤ tGlobal then
      some (.final (storedDrawings.getD (n - 1) default).strokes,
            { st with running := false })
    else
      let ease := getEase easeName
      let segT := segTOf tGlobal n
      let i := segIndexOf segT n
      let tLocal := constrain (ease (constrain (segT - (i : ℚ)) 0 1)) 0 1
      (jsIdxZ storedDrawings i).bind fun A =>
      (jsIdxZ storedDrawings (i + 1)).bind fun B =>
      (tweenDrawingsMulti d A.strokes B.strokes tLocal).map
        fun tw => (.tweened tw, st)

/-- A concrete distance function used to instantiate the abstract metric
`d` in witnesses: taxicab distance.  Like the Euclidean distance computed
by the p5.js `dist` primitive it is nonnegative and zero on equal
points — the only two properties any theorem below assumes of `d`. -/
def taxiDist (p q : Point) : ℚ := |p.x - q.x| + |p.y - q.y|

/-! ### Lemmas about the loop combinators -/

theorem seqOpt_length {α β : Type} {l : List α} {f : α → Option β}
    {out : List β} (h : seqOpt l f = some out) : out.length = l.length := by
  induction l generalizing out with
  | nil =>
    simp only [seqOpt, Option.some.injEq] at h
    subst h; rfl
  | cons a l ih =>
    simp only [seqOpt] at h
    cases hfa : f a with
    | none => rw [hfa] at h; simp at h
    | some b =>
      rw [hfa] at h
      cases hrec : seqOpt l f with
      | none => rw [hrec] at h; simp at h
      | some bs =>
        rw [hrec] at h
        simp only [Option.some_bind, Option.some.injEq] at h
        subst h
        simp [ih hrec]

theorem seqOpt_isSome {α β : Type} {l : List α} {f : α → Option β}
    (h : ∀ a ∈ l, ∃ b, f a = some b) : ∃ out, seqOpt l f = some out := by
  induction l with
  | nil => exact ⟨[], rfl⟩
  | cons a l ih =>
    obtain ⟨b, hb⟩ := h a (List.mem_cons_self a l)
    obtain ⟨bs, hbs⟩ := ih fun x hx => h x (List.mem_cons_of_mem a hx)
    exact ⟨b :: bs, by simp [seqOpt, hb, hbs]⟩

theorem seqOpt_getElem? {α β : Type} {l : List α} {f : α → Option β}
    {out : List β} (h : seqOpt l f = some out) :
    ∀ (j : ℕ) (a : α), l[j]? = some a → out[j]? = f a := by
  induction l generalizing out with
  | nil => intro j a ha; simp at ha
  | cons a0 l ih =>
    intro j a ha
    simp only [seqOpt] at h
    cases hfa : f a0 with
    | none => rw [hfa] at h; simp at h
    | some b =>
      rw [hfa] at h
      cases hrec : seqOpt l f with
      | none => rw [hrec] at h; simp at h
      | some bs =>
        rw [hrec] at h
        simp only [Option.some_bind, Option.some.injEq] at h
        subst h
        cases j with
        | zero =>
          simp only [List.getElem?_cons_zero, Option.some.injEq] at ha
          subst ha
          simp [hfa]
        | succ j =>
          simp only [List.getElem?_cons_succ] at ha ⊢
          exact ih hrec j a ha

theorem scanGo_ge (L : List ℚ) (t : ℚ) :
    ∀ (fuel j : ℕ), j ≤ scanGo L t fuel j := by
  intro fuel
  induction fuel with
  | zero => intro j; simp [scanGo]
  | succ n ih =>
    intro j
    rw [scanGo]
    split
    · exact le_trans (Nat.le_succ j) (ih (j + 1))
    · exact le_rfl

theorem scanGo_le (L : List ℚ) (t : ℚ)
    (hlast : ¬ L.getD (L.length - 1) 0 < t) :
    ∀ (fuel j : ℕ), j ≤ L.length - 1 → scanGo L t fuel j ≤ L.length - 1 := by
  intro fuel
  induction fuel with
  | zero => intro j hj; simpa [scanGo] using hj
  | succ n ih =>
    intro j hj
    rw [scanGo]
    split
    case isTrue h =>
      rcases h with ⟨hjlen, hLj⟩
      rcases lt_or_eq_of_le hj with h1 | h1
      · exact ih (j + 1) (by omega)
      · exact absurd (h1 ▸ hLj) hlast
    case isFalse h => exact hj

/-! ### Lemmas about the cumulative arc-length table -/

theorem cumLen_length {d : Point → Point → ℚ} {points : List Point}
    (h : 1 ≤ points.length) : (cumLen d points).length = points.length := by
  unfold cumLen
  rw [List.length_scanl, List.length_zip, List.length_tail]
  omega

theorem scanl_dist_nonneg (d : Point → Point → ℚ)
    (hd : ∀ p q, 0 ≤ d p q) :
    ∀ (l : List (Point × Point)) (a : ℚ), 0 ≤ a →
      ∀ x ∈ List.scanl (fun acc pq => acc + d pq.1 pq.2) a l, 0 ≤ x := by
  intro l
  induction l with
  | nil =>
    intro a ha x hx
    simp only [List.scanl_nil, List.mem_singleton] at hx
    exact hx ▸ ha
  | cons p l ih =>
    intro a ha x hx
    rw [List.scanl_cons] at hx
    rcases List.mem_cons.1 hx with h | h
    · exact h ▸ ha
    · exact ih (a + d p.1 p.2) (add_nonneg ha (hd _ _)) x h

theorem cumLen_nonneg {d : Point → Point → ℚ} (hd : ∀ p q, 0 ≤ d p q)
    (points : List Point) : ∀ x ∈ cumLen d points, 0 ≤ x :=
  scanl_dist_nonneg d hd _ 0 le_rfl

/-! ### Totality and length of the resampling routine -/

theorem resampleAt_isSome {points : List Point} {L : List ℚ} {total : ℚ}
    {N k : ℕ} (hL : L.length = points.length) (h2 : 2 ≤ points.length)
    (hnn : 0 ≤ total) (htot : ¬ L.getD (L.length - 1) 0 < total)
    (hN : 2 ≤ N) (hk : k < N) :
    ∃ p, resampleAt points L total N k = some p := by
  have hlen : 2 ≤ L.length := hL ▸ h2
  have hN1 : (0 : ℚ) < (N : ℚ) - 1 := by
    have h : (2 : ℚ) ≤ (N : ℚ) := by exact_mod_cast hN
    linarith
  have hc1 : (k : ℚ) / ((N : ℚ) - 1) ≤ 1 := by
    rw [div_le_one hN1]
    have h : (k : ℚ) + 1 ≤ (N : ℚ) := by exact_mod_cast hk
    linarith
  have htle : ((k : ℚ) / ((N : ℚ) - 1)) * total ≤ total :=
    mul_le_of_le_one_left hnn hc1
  have hlast : ¬ L.getD (L.length - 1) 0 < ((k : ℚ) / ((N : ℚ) - 1)) * total :=
    fun hcon => htot (lt_of_lt_of_le hcon htle)
  have hj1 : 1 ≤ scanIdx L (((k : ℚ) / ((N : ℚ) - 1)) * total) :=
    scanGo_ge L _ L.length 1
  have hjle : scanIdx L (((k : ℚ) / ((N : ℚ) - 1)) * total) ≤ L.length - 1 :=
    scanGo_le L _ hlast L.length 1 (by omega)
  have hieq : max 1 (scanIdx L (((k : ℚ) / ((N : ℚ) - 1)) * total))
      = scanIdx L (((k : ℚ) / ((N : ℚ) - 1)) * total) := max_eq_right hj1
  have hi1 : max 1 (scanIdx L (((k : ℚ) / ((N : ℚ) - 1)) * total)) - 1 < L.length := by
    omega
  have hi2 : max 1 (scanIdx L (((k : ℚ) / ((N : ℚ) - 1)) * total)) < L.length := by
    omega
  have hp1 : max 1 (scanIdx L (((k : ℚ) / ((N : ℚ) - 1)) * total)) - 1 < points.length := by
    omega
  have hp2 : max 1 (scanIdx L (((k : ℚ) / ((N : ℚ) - 1)) * total)) < points.length := by
    omega
  suffices h : (resampleAt points L total N k).isSome by
    obtain ⟨p, hp⟩ := Option.isSome_iff_exists.1 h
    exact ⟨p, hp⟩
  simp only [resampleAt]
  rw [List.getElem?_eq_getElem hi1, List.getElem?_eq_getElem hi2,
    List.getElem?_eq_getElem hp1, List.getElem?_eq_getElem hp2]
  rfl

theorem resample_short {d : Point → Point → ℚ} {points : List Point}
    (h : points.length < 2) (N : ℕ) :
    resamplePointsLocal d points N = some points := by
  unfold resamplePointsLocal
  rw [if_pos h]

theorem resample_long {d : Point → Point → ℚ} (hd : ∀ p q, 0 ≤ d p q)
    {points : List Point} (h2 : 2 ≤ points.length) (N : ℕ) :
    ∃ out, resamplePointsLocal d points N = some out ∧
      out.length = max 2 N := by
  have hL : (cumLen d points).length = points.length := cumLen_length (by omega)
  unfold resamplePointsLocal
  rw [if_neg (by omega)]
  by_cases htot :
      (cumLen d points).getD ((cumLen d points).length - 1) 0 = 0
  · rw [if_pos htot]
    exact ⟨_, rfl, List.length_replicate _ _⟩
  · rw [if_neg htot]
    have hnn : 0 ≤ (cumLen d points).getD ((cumLen d points).length - 1) 0 := by
      have hlt : (cumLen d points).length - 1 < (cumLen d points).length := by omega
      rw [List.getD_eq_getElem _ _ hlt]
      exact cumLen_nonneg hd points _ (List.getElem_mem hlt)
    have hall : ∀ k ∈ List.range (max 2 N), ∃ p,
        resampleAt points (cumLen d points)
          ((cumLen d points).getD ((cumLen d points).length - 1) 0)
          (max 2 N) k = some p := by
      intro k hk
      exact resampleAt_isSome hL h2 hnn (not_lt.2 le_rfl) (le_max_left 2 N)
        (List.mem_range.1 hk)
    obtain ⟨out, hout⟩ := seqOpt_isSome hall
    refine ⟨out, hout, ?_⟩
    rw [seqOpt_length hout]
    exact List.length_range _

/-! ### Resampling a constant polyline (the ghost case) -/

theorem scanl_add_self_zero {d : Point → Point → ℚ} {c : Point}
    (hd0 : d c c = 0) :
    ∀ (m : ℕ) (a : ℚ),
      List.scanl (fun acc pq => acc + d pq.1 pq.2) a (List.replicate m (c, c))
        = List.replicate (m + 1) a := by
  intro m
  induction m with
  | zero => intro a; simp
  | succ m ih =>
    intro a
    rw [List.replicate_succ, List.scanl_cons]
    simp only [hd0, add_zero]
    rw [ih a]
    simp [List.replicate_succ]

theorem zip_replicate_self (c : Point) :
    ∀ m : ℕ, (List.replicate (m + 1) c).zip (List.replicate m c)
      = List.replicate m (c, c) := by
  intro m
  induction m with
  | zero => simp
  | succ m ih =>
    have h1 : List.replicate (m + 1 + 1) c = c :: List.replicate (m + 1) c :=
      List.replicate_succ c (m + 1)
    have h2 : List.replicate (m + 1) c = c :: List.replicate m c :=
      List.replicate_succ c m
    calc (List.replicate (m + 1 + 1) c).zip (List.replicate (m + 1) c)
        = (c :: List.replicate (m + 1) c).zip (c :: List.replicate m c) := by
          rw [← h1, ← h2]
      _ = (c, c) :: (List.replicate (m + 1) c).zip (List.replicate m c) :=
          List.zip_cons_cons
      _ = (c, c) :: List.replicate m (c, c) := by rw [ih]
      _ = List.replicate (m + 1) (c, c) := (List.replicate_succ (c, c) m).symm

theorem cumLen_replicate {d : Point → Point → ℚ} {c : Point}
    (hd0 : d c c = 0) (m : ℕ) :
    cumLen d (List.replicate (m + 1) c) = List.replicate (m + 1) 0 := by
  unfold cumLen
  rw [List.replicate_succ, List.tail_cons, ← List.replicate_succ,
    zip_replicate_self, scanl_add_self_zero hd0]

theorem resample_replicate {d : Point → Point → ℚ} {c : Point}
    (hd0 : d c c = 0) {m : ℕ} (h2 : 2 ≤ m) (N : ℕ) :
    resamplePointsLocal d (List.replicate m c) N
      = some (List.replicate (max 2 N) c) := by
  obtain ⟨m', rfl⟩ : ∃ m', m = m' + 1 := ⟨m - 1, by omega⟩
  unfold resamplePointsLocal
  rw [if_neg (by simp; omega)]
  rw [cumLen_replicate hd0]
  have hz : (List.replicate (m' + 1) (0 : ℚ)).getD
      ((List.replicate (m' + 1) (0 : ℚ)).length - 1) 0 = 0 := by
    have hlt : (List.replicate (m' + 1) (0 : ℚ)).length - 1
        < (List.replicate (m' + 1) (0 : ℚ)).length := by simp
    rw [List.getD_eq_getElem _ _ hlt, List.getElem_replicate]
  rw [if_pos hz, List.replicate_succ, List.headI_cons]

/-! ### Lemmas about the greedy matcher -/

theorem bc_foldl_none {d : Point → Point → ℚ} {a : Stroke} {B : List Stroke}
    {used : List ℕ} :
    ∀ (js : List ℕ) (init : Option (ℕ × ℚ)),
      js.foldl
        (fun best j =>
          if j ∈ used then best
          else
            let c := strokeMatchCost d a (B.getD j default)
            match best with
            | none => some (j, c)
            | some b0 => if c < b0.2 then some (j, c) else some b0)
        init = none
      ↔ init = none ∧ ∀ j ∈ js, j ∈ used := by
  intro js
  induction js with
  | nil => simp
  | cons j0 js ih =>
    intro init
    rw [List.foldl_cons, ih]
    by_cases hju : j0 ∈ used
    · simp only [if_pos hju, List.mem_cons]
      constructor
      · rintro ⟨h1, h2⟩
        exact ⟨h1, fun j hj => hj.elim (fun he => he ▸ hju) (h2 j)⟩
      · rintro ⟨h1, h2⟩
        exact ⟨h1, fun j hj => h2 j (Or.inr hj)⟩
    · rw [if_neg hju]
      cases init with
      | none =>
        simp only [List.mem_cons]
        constructor
        · rintro ⟨h1, -⟩; exact absurd h1 (by simp)
        · rintro ⟨-, h2⟩; exact absurd (h2 j0 (Or.inl rfl)) hju
      | some b0 =>
        constructor
        · rintro ⟨h1, -⟩
          have h1' : (if strokeMatchCost d a (B.getD j0 default) < b0.2
              then some (j0, strokeMatchCost d a (B.getD j0 default))
              else some b0) = none := h1
          split at h1' <;> simp at h1'
        · rintro ⟨h1, -⟩; exact absurd h1 (by simp)

theorem bc_foldl_some {d : Point → Point → ℚ} {a : Stroke} {B : List Stroke}
    {used : List ℕ} :
    ∀ (js : List ℕ) (init : Option (ℕ × ℚ)) (j : ℕ) (c : ℚ),
      js.foldl
        (fun best j =>
          if j ∈ used then best
          else
            let c := strokeMatchCost d a (B.getD j default)
            match best with
            | none => some (j, c)
            | some b0 => if c < b0.2 then some (j, c) else some b0)
        init = some (j, c)
      → (∃ c0, init = some (j, c0)) ∨ (j ∈ js ∧ j ∉ used) := by
  intro js
  induction js with
  | nil =>
    intro init j c h
    simp only [List.foldl_nil] at h
    exact Or.inl ⟨c, h⟩
  | cons j0 js ih =>
    intro init j c h
    rw [List.foldl_cons] at h
    rcases ih _ _ _ h with ⟨c0, hstep⟩ | ⟨hmem, hnu⟩
    · by_cases hju : j0 ∈ used
      · rw [if_pos hju] at hstep
        exact Or.inl ⟨c0, hstep⟩
      · rw [if_neg hju] at hstep
        cases hinit : init with
        | none =>
          rw [hinit] at hstep
          simp only [Option.some.injEq, Prod.mk.injEq] at hstep
          exact Or.inr ⟨hstep.1 ▸ List.mem_cons_self j0 js, hstep.1 ▸ hju⟩
        | some b0 =>
          rw [hinit] at hstep
          have hstep' : (if strokeMatchCost d a (B.getD j0 default) < b0.2
              then some (j0, strokeMatchCost d a (B.getD j0 default))
              else some b0) = some (j, c0) := hstep
          by_cases hc : strokeMatchCost d a (B.getD j0 default) < b0.2
          · rw [if_pos hc] at hstep'
            simp only [Option.some.injEq, Prod.mk.injEq] at hstep'
            exact Or.inr ⟨hstep'.1 ▸ List.mem_cons_self j0 js, hstep'.1 ▸ hju⟩
          · rw [if_neg hc] at hstep'
            simp only [Option.some.injEq] at hstep'
            exact Or.inl ⟨c0, by rw [hstep']⟩
    · exact Or.inr ⟨List.mem_cons_of_mem j0 hmem, hnu⟩

theorem bestCandidate_none_iff {d : Point → Point → ℚ} {a : Stroke}
    {B : List Stroke} {used : List ℕ} :
    bestCandidate d a B used = none ↔ ∀ j < B.length, j ∈ used := by
  unfold bestCandidate
  rw [bc_foldl_none]
  simp [List.mem_range]

theorem bestCandidate_some {d : Point → Point → ℚ} {a : Stroke}
    {B : List Stroke} {used : List ℕ} {j : ℕ} {c : ℚ}
    (h : bestCandidate d a B used = some (j, c)) :
    j < B.length ∧ j ∉ used := by
  unfold bestCandidate at h
  rcases bc_foldl_some _ _ _ _ h with ⟨c0, h0⟩ | ⟨hm, hn⟩
  · exact absurd h0 (by simp)
  · exact ⟨List.mem_range.1 hm, hn⟩

/-- The loop invariant of `matchStrokes`'s outer fold: after processing the
first `n` indices of `A`, the used-set is exactly the list of chosen `B`
indices, the chosen `A` indices form a sublist of `range n`, the chosen `B`
indices are distinct and in range, and exactly `min n |B|` pairs exist. -/
theorem matchGo_inv (d : Point → Point → ℚ) (A B : List Stroke) (n : ℕ) :
    ((List.range n).foldl
      (fun acc i =>
        match bestCandidate d (A.getD i default) B acc.2 with
        | some jc => (acc.1 ++ [(i, jc.1)], acc.2 ++ [jc.1])
        | none => acc)
      ([], [])).2
      = ((List.range n).foldl
        (fun acc i =>
          match bestCandidate d (A.getD i default) B acc.2 with
          | some jc => (acc.1 ++ [(i, jc.1)], acc.2 ++ [jc.1])
          | none => acc)
        ([], [])).1.map Prod.snd ∧
    (((List.range n).foldl
      (fun acc i =>
        match bestCandidate d (A.getD i default) B acc.2 with
        | some jc => (acc.1 ++ [(i, jc.1)], acc.2 ++ [jc.1])
        | none => acc)
      ([], [])).1.map Prod.fst).Sublist (List.range n) ∧
    (((List.range n).foldl
      (fun acc i =>
        match bestCandidate d (A.getD i default) B acc.2 with
        | some jc => (acc.1 ++ [(i, jc.1)], acc.2 ++ [jc.1])
        | none => acc)
      ([], [])).1.map Prod.snd).Nodup ∧
    (∀ p ∈ ((List.range n).foldl
      (fun acc i =>
        match bestCandidate d (A.getD i default) B acc.2 with
        | some jc => (acc.1 ++ [(i, jc.1)], acc.2 ++ [jc.1])
        | none => acc)
      ([], [])).1, p.2 < B.length) ∧
    ((List.range n).foldl
      (fun acc i =>
        match bestCandidate d (A.getD i default) B acc.2 with
        | some jc => (acc.1 ++ [(i, jc.1)], acc.2 ++ [jc.1])
        | none => acc)
      ([], [])).1.length = min n B.length := by
  induction n with
  | zero => simp
  | succ n ih =>
    obtain ⟨h1, h2, h3, h4, h5⟩ := ih
    rw [List.range_succ, List.foldl_append, List.foldl_cons, List.foldl_nil]
    set pr := (List.range n).foldl
      (fun acc i =>
        match bestCandidate d (A.getD i default) B acc.2 with
        | some jc => (acc.1 ++ [(i, jc.1)], acc.2 ++ [jc.1])
        | none => acc)
      (([], []) : List (ℕ × ℕ) × List ℕ) with hpr
    cases hbc : bestCandidate d (A.getD n default) B pr.2 with
    | none =>
      simp only
      refine ⟨h1, h2.trans (List.sublist_append_left _ _), h3, h4, ?_⟩
      rw [bestCandidate_none_iff] at hbc
      have hsub : List.range B.length ⊆ pr.1.map Prod.snd := by
        intro j hj
        exact h1 ▸ hbc j (List.mem_range.1 hj)
      have hle : B.length ≤ pr.1.length := by
        have := (List.subperm_of_subset (List.nodup_range B.length) hsub).length_le
        rwa [List.length_range, List.length_map] at this
      omega
    | some jc =>
      obtain ⟨hjlt, hjnu⟩ := bestCandidate_some hbc
      simp only
      constructor
      · simp [h1]
      refine ⟨?_, ?_, ?_, ?_⟩
      · rw [List.map_append]
        exact h2.append (List.Sublist.refl _)
      · rw [List.map_append, List.nodup_append]
        refine ⟨h3, List.nodup_singleton _, ?_⟩
        intro x hx hx'
        simp only [List.map_cons, List.map_nil, List.mem_singleton] at hx'
        exact hjnu (h1 ▸ (hx' ▸ hx))
      · intro p hp
        rcases List.mem_append.1 hp with hp | hp
        · exact h4 p hp
        · rw [List.mem_singleton] at hp
          exact hp ▸ hjlt
      · rw [List.length_append, List.length_singleton, h5]
        have hnB : n < B.length ∨ B.length ≤ n := lt_or_ge n B.length
        rcases hnB with hnB | hnB
        · omega
        · exfalso
          have hlen : (pr.1.map Prod.snd).length = B.length := by
            rw [List.length_map, h5]; omega
          have hsub : pr.1.map Prod.snd ⊆ List.range B.length := by
            intro x hx
            rw [List.mem_range]
            obtain ⟨p, hp, rfl⟩ := List.mem_map.1 hx
            exact h4 p hp
          have hperm : List.Perm (pr.1.map Prod.snd) (List.range B.length) :=
            (List.subperm_of_subset h3 hsub).perm_of_length_le
              (by rw [List.length_range, hlen])
          exact hjnu (h1 ▸ hperm.mem_iff.2 (List.mem_range.2 hjlt))

/-- Package `matchGo_inv` at `n = A.length` in terms of `matchStrokes`. -/
theorem matchStrokes_inv (d : Point → Point → ℚ) (A B : List Stroke) :
    ((matchStrokes d A B).pairs.map Prod.fst).Sublist (List.range A.length) ∧
    ((matchStrokes d A B).pairs.map Prod.snd).Nodup ∧
    (∀ p ∈ (matchStrokes d A B).pairs, p.2 < B.length) ∧
    (matchStrokes d A B).pairs.length = min A.length B.length := by
  obtain ⟨-, h2, h3, h4, h5⟩ := matchGo_inv d A B A.length
  exact ⟨h2, h3, h4, h5⟩

theorem matchStrokes_fst_nodup (d : Point → Point → ℚ) (A B : List Stroke) :
    ((matchStrokes d A B).pairs.map Prod.fst).Nodup :=
  (List.nodup_range A.length).sublist (matchStrokes_inv d A B).1

theorem matchStrokes_fst_lt (d : Point → Point → ℚ) (A B : List Stroke) :
    ∀ p ∈ (matchStrokes d A B).pairs, p.1 < A.length := by
  intro p hp
  have hmem : p.1 ∈ (matchStrokes d A B).pairs.map Prod.fst :=
    List.mem_map.2 ⟨p, hp, rfl⟩
  exact List.mem_range.1 ((matchStrokes_inv d A B).1.subset hmem)

/-- Counting occurrences of `i` in the filtered range. -/
theorem count_filter_range (n i : ℕ) (p : ℕ → Bool) :
    ((List.range n).filter p).count i = if i < n ∧ p i = true then 1 else 0 := by
  induction n with
  | zero => simp
  | succ n ih =>
    rw [List.range_succ, List.filter_append, List.count_append, ih,
      List.filter_singleton]
    by_cases hp : p n = true
    · rw [hp, cond_true, List.count_singleton']
      by_cases hin : i = n
      · subst hin
        rw [if_neg (fun h => absurd h.1 (lt_irrefl i)), if_pos rfl,
          if_pos ⟨Nat.lt_succ_self i, hp⟩]
      · rw [if_neg (show ¬n = i from fun h => hin h.symm), add_zero]
        have hiff : (i < n + 1 ∧ p i = true) ↔ (i < n ∧ p i = true) := by
          constructor
          · rintro ⟨h, hpi⟩
            exact ⟨by omega, hpi⟩
          · rintro ⟨h, hpi⟩
            exact ⟨by omega, hpi⟩
        simp only [hiff]
    · have hp' : p n = false := by simpa using hp
      rw [hp', cond_false, List.count_nil, add_zero]
      by_cases hpi : p i = true
      · have hne : i ≠ n := fun he => hp (he ▸ hpi)
        have hiff : (i < n + 1 ∧ p i = true) ↔ (i < n ∧ p i = true) := by
          constructor
          · rintro ⟨h, hq⟩
            exact ⟨by omega, hq⟩
          · rintro ⟨h, hq⟩
            exact ⟨by omega, hq⟩
        simp only [hiff]
      · rw [if_neg (fun h => hpi h.2), if_neg (fun h => hpi h.2)]

/-- For a duplicate-free list `l` and `i < n`, `i` is counted exactly once
between `l` and the range entries not reported by `l.any (· == ·)`. -/
theorem count_split {l : List ℕ} (hl : l.Nodup) {n i : ℕ} (hi : i < n) :
    l.count i
      + ((List.range n).filter (fun x => ! l.any (fun y => y == x))).count i
      = 1 := by
  rw [count_filter_range]
  by_cases hm : i ∈ l
  · rw [List.count_eq_one_of_mem hl hm, if_neg]
    rintro ⟨-, hpi⟩
    simp only [Bool.not_eq_true', List.any_eq_false, beq_iff_eq] at hpi
    exact hpi i hm rfl
  · rw [List.count_eq_zero_of_not_mem hm, if_pos]
    refine ⟨hi, ?_⟩
    simp only [Bool.not_eq_true', List.any_eq_false, beq_iff_eq]
    intro y hy he
    exact hm (he ▸ hy)

/-- Splitting a filter by a predicate and its negation. -/
theorem length_filter_split {α : Type} (l : List α) (p : α → Bool) :
    (l.filter p).length + (l.filter (fun x => ! p x)).length = l.length := by
  induction l with
  | nil => simp
  | cons a l ih =>
    by_cases hp : p a = true <;>
      simp [List.filter_cons, hp, Nat.succ_eq_add_one] <;> omega

/-- Length of the unmatched-index filter: the range entries not occurring
in a duplicate-free, in-range list `l`. -/
theorem length_filter_not_any {l : List ℕ} (hl : l.Nodup) {n : ℕ}
    (hsub : ∀ x ∈ l, x < n) :
    ((List.range n).filter (fun x => ! l.any (fun y => y == x))).length
      = n - l.length := by
  have hpos : ((List.range n).filter (fun x => l.any (fun y => y == x))).length
      = l.length := by
    have hnd1 : ((List.range n).filter (fun x => l.any (fun y => y == x))).Nodup :=
      (List.nodup_range n).filter _
    have hmem : ∀ x, x ∈ (List.range n).filter (fun x => l.any (fun y => y == x))
        ↔ x ∈ l := by
      intro x
      rw [List.mem_filter, List.mem_range, List.any_eq_true]
      constructor
      · rintro ⟨-, y, hy, he⟩
        exact (beq_iff_eq.1 he) ▸ hy
      · intro hx
        exact ⟨hsub x hx, x, hx, beq_iff_eq.2 rfl⟩
    exact ((List.perm_ext_iff_of_nodup hnd1 hl).2 hmem).length_eq
  have hsplit := length_filter_split (List.range n)
    (fun x => l.any (fun y => y == x))
  rw [hpos, List.length_range] at hsplit
  omega

/-- The `pairs.some(p => p[0] === i)` test of line 109 is membership of `i`
among the pairs' first components. -/
theorem any_fst_eq' (pairs : List (ℕ × ℕ)) (i : ℕ) :
    pairs.any (fun p => p.1 == i) = (pairs.map Prod.fst).any (fun y => y == i) := by
  induction pairs with
  | nil => rfl
  | cons p ps ih => simp only [List.map_cons, List.any_cons, ih]

theorem any_fst_eq (pairs : List (ℕ × ℕ)) :
    (fun i => ! (pairs.any (fun p => p.1 == i)))
      = (fun i => ! ((pairs.map Prod.fst).any (fun y => y == i))) := by
  funext i
  rw [any_fst_eq']

/-- The `pairs.some(p => p[1] === j)` test of line 111, analogously. -/
theorem any_snd_eq' (pairs : List (ℕ × ℕ)) (j : ℕ) :
    pairs.any (fun p => p.2 == j) = (pairs.map Prod.snd).any (fun y => y == j) := by
  induction pairs with
  | nil => rfl
  | cons p ps ih => simp only [List.map_cons, List.any_cons, ih]

theorem any_snd_eq (pairs : List (ℕ × ℕ)) :
    (fun j => ! (pairs.any (fun p => p.2 == j)))
      = (fun j => ! ((pairs.map Prod.snd).any (fun y => y == j))) := by
  funext j
  rw [any_snd_eq']

theorem matchStrokes_unA (d : Point → Point → ℚ) (A B : List Stroke) :
    (matchStrokes d A B).unmatchedA = (List.range A.length).filter
      (fun i => ! (((matchStrokes d A B).pairs.map Prod.fst).any
        (fun y => y == i))) := by
  show (List.range A.length).filter _ = _
  rw [any_fst_eq]
  rfl

theorem matchStrokes_unB (d : Point → Point → ℚ) (A B : List Stroke) :
    (matchStrokes d A B).unmatchedB = (List.range B.length).filter
      (fun j => ! (((matchStrokes d A B).pairs.map Prod.snd).any
        (fun y => y == j))) := by
  show (List.range B.length).filter _ = _
  rw [any_snd_eq]
  rfl

theorem matchStrokes_unA_length (d : Point → Point → ℚ) (A B : List Stroke) :
    (matchStrokes d A B).unmatchedA.length = A.length - B.length := by
  rw [matchStrokes_unA]
  have h := length_filter_not_any (matchStrokes_fst_nodup d A B)
    (l := (matchStrokes d A B).pairs.map Prod.fst) (n := A.length)
    (fun x hx => by
      obtain ⟨p, hp, rfl⟩ := List.mem_map.1 hx
      exact matchStrokes_fst_lt d A B p hp)
  rw [h, List.length_map, (matchStrokes_inv d A B).2.2.2]
  omega

theorem matchStrokes_unB_length (d : Point → Point → ℚ) (A B : List Stroke) :
    (matchStrokes d A B).unmatchedB.length = B.length - A.length := by
  rw [matchStrokes_unB]
  have h := length_filter_not_any (matchStrokes_inv d A B).2.1
    (l := (matchStrokes d A B).pairs.map Prod.snd) (n := B.length)
    (fun x hx => by
      obtain ⟨p, hp, rfl⟩ := List.mem_map.1 hx
      exact (matchStrokes_inv d A B).2.2.1 p hp)
  rw [h, List.length_map, (matchStrokes_inv d A B).2.2.2]
  omega

theorem matchStrokes_unA_mem (d : Point → Point → ℚ) (A B : List Stroke) :
    ∀ i ∈ (matchStrokes d A B).unmatchedA, i < A.length := by
  intro i hi
  have : i ∈ List.range A.length := List.mem_filter.1 hi |>.1
  exact List.mem_range.1 this

theorem matchStrokes_unB_mem (d : Point → Point → ℚ) (A B : List Stroke) :
    ∀ j ∈ (matchStrokes d A B).unmatchedB, j < B.length := by
  intro j hj
  have : j ∈ List.range B.length := List.mem_filter.1 hj |>.1
  exact List.mem_range.1 this

/-! ### Lemmas about the stroke tweener -/

theorem lerpQ_zero (x y : ℚ) : lerpQ x y 0 = x := by
  unfold lerpQ; ring

theorem lerpQ_one (x y : ℚ) : lerpQ x y 1 = y := by
  unfold lerpQ; ring

/-- If both resampled polylines are available and long enough, one tween
produces a stroke whose fields are the source's lerps and whose point `j`
is the lerp of the resampled points `j`. -/
theorem tween_spec {d : Point → Point → ℚ} {a b : Stroke} {t : ℚ} {N : ℕ}
    {pa pb : List Point}
    (hpa : resamplePointsLocal d a.points N = some pa)
    (hpb : resamplePointsLocal d b.points N = some pb)
    (hla : N ≤ pa.length) (hlb : N ≤ pb.length) :
    ∃ s, tweenTwoStrokes d a b t N = some s ∧
      s.points.length = N ∧
      s.eraser = false ∧
      s.colHSB.h = lerpQ a.colHSB.h b.colHSB.h t ∧
      s.colHSB.s = lerpQ a.colHSB.s b.colHSB.s t ∧
      s.colHSB.b = lerpQ a.colHSB.b b.colHSB.b t ∧
      s.thickness = lerpQ (jsOr a.thickness 4) (jsOr b.thickness 4) t ∧
      s.opacity = some (lerpQ (a.opacity.getD 100) (b.opacity.getD 100) t) ∧
      ∀ j, j < N → ∃ p q, pa[j]? = some p ∧ pb[j]? = some q ∧
        s.points[j]? = some ⟨lerpQ p.x q.x t, lerpQ p.y q.y t⟩ := by
  have hall : ∀ j ∈ List.range N, ∃ r,
      ((pa[j]?).bind fun p => (pb[j]?).bind fun q =>
        some (⟨lerpQ p.x q.x t, lerpQ p.y q.y t⟩ : Point)) = some r := by
    intro j hj
    have hj' := List.mem_range.1 hj
    rw [List.getElem?_eq_getElem (lt_of_lt_of_le hj' hla),
      List.getElem?_eq_getElem (lt_of_lt_of_le hj' hlb)]
    exact ⟨_, rfl⟩
  obtain ⟨pts, hpts⟩ := seqOpt_isSome hall
  refine ⟨{ colHSB := { h := lerpQ a.colHSB.h b.colHSB.h t,
                        s := lerpQ a.colHSB.s b.colHSB.s t,
                        b := lerpQ a.colHSB.b b.colHSB.b t,
                        a := some (lerpQ
                          ((a.opacity.orElse fun _ => a.colHSB.a).getD 100)
                          ((b.opacity.orElse fun _ => b.colHSB.a).getD 100) t) },
            thickness := lerpQ (jsOr a.thickness 4) (jsOr b.thickness 4) t,
            opacity := some (lerpQ (a.opacity.getD 100) (b.opacity.getD 100) t),
            eraser := false,
            points := pts }, ?_, ?_, rfl, rfl, rfl, rfl, rfl, rfl, ?_⟩
  · unfold tweenTwoStrokes
    rw [hpa, hpb]
    simp only [Option.some_bind]
    rw [hpts]
    rfl
  · show pts.length = N
    rw [seqOpt_length hpts, List.length_range]
  · intro j hj
    have h1 : pa[j]? = some pa[j] :=
      List.getElem?_eq_getElem (lt_of_lt_of_le hj hla)
    have h2 : pb[j]? = some pb[j] :=
      List.getElem?_eq_getElem (lt_of_lt_of_le hj hlb)
    refine ⟨pa[j], pb[j], h1, h2, ?_⟩
    show pts[j]? = _
    rw [seqOpt_getElem? hpts j j (by rw [List.getElem?_range hj]), h1, h2]
    rfl

/-- Tweening two strokes that each have at least two points cannot throw,
for any `t` and any `N`. -/
theorem tween_total {d : Point → Point → ℚ} (hd : ∀ p q, 0 ≤ d p q)
    {a b : Stroke} (ha : 2 ≤ a.points.length) (hb : 2 ≤ b.points.length)
    (t : ℚ) (N : ℕ) :
    ∃ s, tweenTwoStrokes d a b t N = some s ∧ s.points.length = N ∧
      s.eraser = false := by
  obtain ⟨pa, hpa, hla⟩ := resample_long hd ha N
  obtain ⟨pb, hpb, hlb⟩ := resample_long hd hb N
  obtain ⟨s, hs, h1, h2, -⟩ := tween_spec (t := t) hpa hpb
    (hla ▸ le_max_right 2 N) (hlb ▸ le_max_right 2 N)
  exact ⟨s, hs, h1, h2⟩

theorem ghost_points_length (s : Stroke) :
    (ghostFromStrokeLike s).points.length = 20 := by
  simp [ghostFromStrokeLike]

/-- Tweening two whole drawings cannot throw when every non-eraser stroke
has at least two points, and the output accounts for every matched pair and
every unmatched stroke. -/
theorem tweenDrawings_total (d : Point → Point → ℚ) (hd : ∀ p q, 0 ≤ d p q)
    (A B : List Stroke) (t : ℚ)
    (hA : ∀ s ∈ A, s.eraser = false → 2 ≤ s.points.length)
    (hB : ∀ s ∈ B, s.eraser = false → 2 ≤ s.points.length) :
    ∃ out, tweenDrawingsMulti d A B t = some out ∧
      out.length =
        (matchStrokes d (A.filter (fun s => !s.eraser))
            (B.filter (fun s => !s.eraser))).pairs.length
          + (matchStrokes d (A.filter (fun s => !s.eraser))
              (B.filter (fun s => !s.eraser))).unmatchedA.length
          + (matchStrokes d (A.filter (fun s => !s.eraser))
              (B.filter (fun s => !s.eraser))).unmatchedB.length := by
  have hAA : ∀ s ∈ A.filter (fun s => !s.eraser), 2 ≤ s.points.length := by
    intro s hs
    have h := List.mem_filter.1 hs
    exact hA s h.1 (by simpa using h.2)
  have hBB : ∀ s ∈ B.filter (fun s => !s.eraser), 2 ≤ s.points.length := by
    intro s hs
    have h := List.mem_filter.1 hs
    exact hB s h.1 (by simpa using h.2)
  have hone : ∀ p ∈ (matchStrokes d (A.filter (fun s => !s.eraser))
      (B.filter (fun s => !s.eraser))).pairs, ∃ s',
      tweenTwoStrokes d ((A.filter (fun s => !s.eraser)).getD p.1 default)
        ((B.filter (fun s => !s.eraser)).getD p.2 default) t 60 = some s' := by
    intro p hp
    have hi := matchStrokes_fst_lt d _ _ p hp
    have hj := (matchStrokes_inv d (A.filter (fun s => !s.eraser))
      (B.filter (fun s => !s.eraser))).2.2.1 p hp
    have hmA : (A.filter (fun s => !s.eraser)).getD p.1 default
        ∈ A.filter (fun s => !s.eraser) := by
      rw [List.getD_eq_getElem _ _ hi]
      exact List.getElem_mem hi
    have hmB : (B.filter (fun s => !s.eraser)).getD p.2 default
        ∈ B.filter (fun s => !s.eraser) := by
      rw [List.getD_eq_getElem _ _ hj]
      exact List.getElem_mem hj
    obtain ⟨s', hs', -, -⟩ := tween_total hd (hAA _ hmA) (hBB _ hmB) t 60
    exact ⟨s', hs'⟩
  have htwo : ∀ ia ∈ (matchStrokes d (A.filter (fun s => !s.eraser))
      (B.filter (fun s => !s.eraser))).unmatchedA, ∃ s',
      tweenTwoStrokes d ((A.filter (fun s => !s.eraser)).getD ia default)
        (ghostFromStrokeLike
          ((A.filter (fun s => !s.eraser)).getD ia default)) t 40 = some s' := by
    intro ia hia
    have hi := matchStrokes_unA_mem d _ _ ia hia
    have hmA : (A.filter (fun s => !s.eraser)).getD ia default
        ∈ A.filter (fun s => !s.eraser) := by
      rw [List.getD_eq_getElem _ _ hi]
      exact List.getElem_mem hi
    have hg : 2 ≤ (ghostFromStrokeLike
        ((A.filter (fun s => !s.eraser)).getD ia default)).points.length := by
      rw [ghost_points_length]
      omega
    obtain ⟨s', hs', -, -⟩ := tween_total hd (hAA _ hmA) hg t 40
    exact ⟨s', hs'⟩
  have hthree : ∀ ib ∈ (matchStrokes d (A.filter (fun s => !s.eraser))
      (B.filter (fun s => !s.eraser))).unmatchedB, ∃ s',
      tweenTwoStrokes d
        (ghostFromStrokeLike
          ((B.filter (fun s => !s.eraser)).getD ib default))
        ((B.filter (fun s => !s.eraser)).getD ib default) t 40 = some s' := by
    intro ib hib
    have hi := matchStrokes_unB_mem d _ _ ib hib
    have hmB : (B.filter (fun s => !s.eraser)).getD ib default
        ∈ B.filter (fun s => !s.eraser) := by
      rw [List.getD_eq_getElem _ _ hi]
      exact List.getElem_mem hi
    have hg : 2 ≤ (ghostFromStrokeLike
        ((B.filter (fun s => !s.eraser)).getD ib default)).points.length := by
      rw [ghost_points_length]
      omega
    obtain ⟨s', hs', -, -⟩ := tween_total hd hg (hBB _ hmB) t 40
    exact ⟨s', hs'⟩
  obtain ⟨m1, hm1⟩ := seqOpt_isSome hone
  obtain ⟨m2, hm2⟩ := seqOpt_isSome htwo
  obtain ⟨m3, hm3⟩ := seqOpt_isSome hthree
  refine ⟨m1 ++ m2 ++ m3, ?_, ?_⟩
  · simp only [tweenDrawingsMulti]
    rw [hm1, hm2, hm3]
    rfl
  · rw [List.length_append, List.length_append, seqOpt_length hm1,
      seqOpt_length hm2, seqOpt_length hm3]

/-! ### The concrete witness metric -/

theorem taxiDist_nonneg : ∀ p q : Point, 0 ≤ taxiDist p q := by
  intro p q
  unfold taxiDist
  positivity

theorem taxiDist_self : ∀ p : Point, taxiDist p p = 0 := by
  intro p
  unfold taxiDist
  simp

theorem jsOr_ne {x : ℚ} (dflt : ℚ) (h : x ≠ 0) : jsOr x dflt = x :=
  if_neg h

theorem seqOpt_eq_none {α β : Type} {l : List α} {f : α → Option β} {a : α}
    (ha : a ∈ l) (hfa : f a = none) : seqOpt l f = none := by
  induction l with
  | nil => cases ha
  | cons a0 l ih =>
    rcases List.mem_cons.1 ha with rfl | hmem
    · simp [seqOpt, hfa]
    · cases hf0 : f a0 with
      | none => simp [seqOpt, hf0]
      | some b => simp [seqOpt, hf0, ih hmem]

/-! ### The claims -/

/-- **C1** (corrected): the claim asserts that `tweenStrokes(a, b, t, N)`
completes without throwing even when a stroke's point list has 0 or 1
points.  It is false: `resample` then returns the short copy, and the
point-interpolation loop reads `pa[j]` past its end, so `pa[j].x` throws a
`TypeError`.  Concretely, tweening a 0-point stroke against a legitimate
2-point stroke at `t = 0`, `N = 60` throws (evaluates to `none`). -/
theorem tween_short_stroke_throws :
    tweenTwoStrokes taxiDist
      ⟨⟨0, 0, 0, none⟩, 4, some 100, false, []⟩
      ⟨⟨0, 0, 0, none⟩, 4, some 100, false, [⟨0, 0⟩, ⟨0, 0⟩]⟩ 0 60 = none := by
  have hb : resamplePointsLocal taxiDist [(⟨0, 0⟩ : Point), ⟨0, 0⟩] 60
      = some (List.replicate (max 2 60) ⟨0, 0⟩) := by
    show resamplePointsLocal taxiDist (List.replicate 2 ⟨0, 0⟩) 60 = _
    exact resample_replicate (taxiDist_self _) (by omega) 60
  unfold tweenTwoStrokes
  rw [resample_short (by simp) 60, hb]
  simp only [Option.some_bind]
  rw [seqOpt_eq_none (a := 1) (by simp) rfl]
  rfl

/-- **C1** (amended): `resample` never throws — it returns a copy for
fewer than 2 input points and a well-formed `max 2 N`-point list
otherwise — and `tweenStrokes(a, b, t, N)` completes with a well-formed
`N`-point, non-eraser stroke for every `t` and `N` **provided both strokes
have at least 2 points**; with a 0- or 1-point stroke the tween itself
performs an out-of-bounds point access and throws. -/
theorem resample_tween_safety (d : Point → Point → ℚ)
    (hd : ∀ p q, 0 ≤ d p q) :
    (∀ (pts : List Point) (N : ℕ), pts.length < 2 →
        resamplePointsLocal d pts N = some pts) ∧
    (∀ (pts : List Point) (N : ℕ), 2 ≤ pts.length →
        ∃ out, resamplePointsLocal d pts N = some out ∧
          out.length = max 2 N) ∧
    (∀ (a b : Stroke) (t : ℚ) (N : ℕ),
        2 ≤ a.points.length → 2 ≤ b.points.length →
        ∃ s, tweenTwoStrokes d a b t N = some s ∧ s.points.length = N ∧
          s.eraser = false) :=
  ⟨fun _ N h => resample_short h N,
   fun _ N h => resample_long hd h N,
   fun _ _ t N ha hb => tween_total hd ha hb t N⟩

/-- Witness for the amended C1 at a concrete input. -/
theorem resample_tween_safety_witness :
    resamplePointsLocal taxiDist [(⟨0, 0⟩ : Point)] 5 = some [⟨0, 0⟩] :=
  (resample_tween_safety taxiDist taxiDist_nonneg).1 [⟨0, 0⟩] 5 (by simp)

/-- **C4** (confirmed): for every polyline with at least 2 points and every
`N`, `resample(P, N)` succeeds and returns exactly `max 2 N` points — in
particular exactly `N` points whenever `N ≥ 2`, and `N` is clamped up to 2
otherwise. -/
theorem resample_point_count (d : Point → Point → ℚ)
    (hd : ∀ p q, 0 ≤ d p q) (P : List Point) (N : ℕ)
    (h2 : 2 ≤ P.length) :
    ∃ out, resamplePointsLocal d P N = some out ∧ out.length = max 2 N ∧
      (2 ≤ N → out.length = N) := by
  obtain ⟨out, h1, hlen⟩ := resample_long hd h2 N
  exact ⟨out, h1, hlen, fun hN => by rw [hlen]; omega⟩

/-- Witness for C4 at a concrete input. -/
theorem resample_point_count_witness :
    ∃ out, resamplePointsLocal taxiDist [(⟨0, 0⟩ : Point), ⟨1, 0⟩] 5
        = some out ∧ out.length = max 2 5 ∧ (2 ≤ 5 → out.length = 5) :=
  resample_point_count taxiDist taxiDist_nonneg [⟨0, 0⟩, ⟨1, 0⟩] 5 (by simp)

/-- **C5** (confirmed): in `match(A, B)` every index of `A` appears exactly
once, either as a pair's first component or in `unmatchedA` — the two
occurrence counts sum to 1, which also rules out duplicates within the
pairs — and symmetrically for `B`. -/
theorem match_totality (d : Point → Point → ℚ) (A B : List Stroke) :
    (∀ i, i < A.length →
        ((matchStrokes d A B).pairs.map Prod.fst).count i
          + (matchStrokes d A B).unmatchedA.count i = 1) ∧
    (∀ j, j < B.length →
        ((matchStrokes d A B).pairs.map Prod.snd).count j
          + (matchStrokes d A B).unmatchedB.count j = 1) := by
  constructor
  · intro i hi
    rw [matchStrokes_unA]
    exact count_split (matchStrokes_fst_nodup d A B) hi
  · intro j hj
    rw [matchStrokes_unB]
    exact count_split (matchStrokes_inv d A B).2.1 hj

/-- Witness for C5 at a concrete input. -/
theorem match_totality_witness :
    ((matchStrokes taxiDist [default] []).pairs.map Prod.fst).count 0
      + (matchStrokes taxiDist [default] []).unmatchedA.count 0 = 1 :=
  (match_totality taxiDist [default] []).1 0 (by simp)

/-- **C10** (confirmed): `match(A, B)` pairs exactly `min |A| |B|` strokes
(in `ℚ` every cost is finite, so a pair is formed whenever an unused `B`
stroke remains); `unmatchedA` has `|A| - |B|` elements (truncated) and
`unmatchedB` has `|B| - |A|`; when `|A| ≤ |B|` no stroke of `A` goes
unmatched. -/
theorem match_counts (d : Point → Point → ℚ) (A B : List Stroke) :
    (matchStrokes d A B).pairs.length = min A.length B.length ∧
    (matchStrokes d A B).unmatchedA.length = A.length - B.length ∧
    (matchStrokes d A B).unmatchedB.length = B.length - A.length ∧
    (A.length ≤ B.length → (matchStrokes d A B).unmatchedA = []) := by
  refine ⟨(matchStrokes_inv d A B).2.2.2, matchStrokes_unA_length d A B,
    matchStrokes_unB_length d A B, ?_⟩
  intro h
  have hlen := matchStrokes_unA_length d A B
  rw [Nat.sub_eq_zero_of_le h] at hlen
  exact List.length_eq_zero.1 hlen

/-- Witness for C10 at a concrete input. -/
theorem match_counts_witness :
    (matchStrokes taxiDist [default] [default, default]).unmatchedA = [] :=
  (match_counts taxiDist [default] [default, default]).2.2.2 (by simp)

/-- **C6** (confirmed): for strokes with at least 2 points each, nonzero
thickness, and an explicit opacity, `tweenStrokes(a, b, 0, N)` reproduces
the positions of `resample(a.points, N)` and a's color channels, thickness,
and opacity exactly, and `tweenStrokes(a, b, 1, N)` reproduces b's.  (`N ≥ 2`
so that the tween's `N` output points coincide with the full resampled
list; in `ℚ` the lerp at the endpoints is exact, so "within tolerance"
becomes equality.) -/
theorem tween_boundaries (d : Point → Point → ℚ) (hd : ∀ p q, 0 ≤ d p q)
    (a b : Stroke) (N : ℕ) (hN : 2 ≤ N)
    (ha : 2 ≤ a.points.length) (hb : 2 ≤ b.points.length)
    (hta : a.thickness ≠ 0) (htb : b.thickness ≠ 0)
    (oa ob : ℚ) (hoa : a.opacity = some oa) (hob : b.opacity = some ob) :
    ∃ pa pb s0 s1,
      resamplePointsLocal d a.points N = some pa ∧
      resamplePointsLocal d b.points N = some pb ∧
      tweenTwoStrokes d a b 0 N = some s0 ∧
      s0.points = pa ∧ s0.colHSB.h = a.colHSB.h ∧
      s0.colHSB.s = a.colHSB.s ∧ s0.colHSB.b = a.colHSB.b ∧
      s0.thickness = a.thickness ∧ s0.opacity = some oa ∧
      tweenTwoStrokes d a b 1 N = some s1 ∧
      s1.points = pb ∧ s1.colHSB.h = b.colHSB.h ∧
      s1.colHSB.s = b.colHSB.s ∧ s1.colHSB.b = b.colHSB.b ∧
      s1.thickness = b.thickness ∧ s1.opacity = some ob := by
  obtain ⟨pa, hpa, hla⟩ := resample_long hd ha N
  obtain ⟨pb, hpb, hlb⟩ := resample_long hd hb N
  have hla' : N ≤ pa.length := hla ▸ le_max_right 2 N
  have hlb' : N ≤ pb.length := hlb ▸ le_max_right 2 N
  have hlaN : pa.length = N := by rw [hla]; omega
  have hlbN : pb.length = N := by rw [hlb]; omega
  obtain ⟨s0, hs0, hlen0, -, hh0, hss0, hbb0, hth0, hop0, hpt0⟩ :=
    tween_spec (t := 0) hpa hpb hla' hlb'
  obtain ⟨s1, hs1, hlen1, -, hh1, hss1, hbb1, hth1, hop1, hpt1⟩ :=
    tween_spec (t := 1) hpa hpb hla' hlb'
  refine ⟨pa, pb, s0, s1, hpa, hpb, hs0, ?_, ?_, ?_, ?_, ?_, ?_,
    hs1, ?_, ?_, ?_, ?_, ?_, ?_⟩
  · apply List.ext_getElem?
    intro j
    by_cases hj : j < N
    · obtain ⟨p, q, hp, hq, hs⟩ := hpt0 j hj
      rw [hs, hp, lerpQ_zero, lerpQ_zero]
    · rw [List.getElem?_eq_none (by omega : s0.points.length ≤ j),
        List.getElem?_eq_none (by omega : pa.length ≤ j)]
  · rw [hh0, lerpQ_zero]
  · rw [hss0, lerpQ_zero]
  · rw [hbb0, lerpQ_zero]
  · rw [hth0, lerpQ_zero, jsOr_ne 4 hta]
  · rw [hop0, lerpQ_zero, hoa]
    rfl
  · apply List.ext_getElem?
    intro j
    by_cases hj : j < N
    · obtain ⟨p, q, hp, hq, hs⟩ := hpt1 j hj
      rw [hs, hq, lerpQ_one, lerpQ_one]
    · rw [List.getElem?_eq_none (by omega : s1.points.length ≤ j),
        List.getElem?_eq_none (by omega : pb.length ≤ j)]
  · rw [hh1, lerpQ_one]
  · rw [hss1, lerpQ_one]
  · rw [hbb1, lerpQ_one]
  · rw [hth1, lerpQ_one, jsOr_ne 4 htb]
  · rw [hop1, lerpQ_one, hob]
    rfl

/-- Witness for C6 at a concrete input. -/
theorem tween_boundaries_witness :
    ∃ pa pb s0 s1,
      resamplePointsLocal taxiDist [(⟨0, 0⟩ : Point), ⟨1, 0⟩] 2 = some pa ∧
      resamplePointsLocal taxiDist [(⟨0, 1⟩ : Point), ⟨2, 3⟩] 2 = some pb ∧
      tweenTwoStrokes taxiDist
        ⟨⟨1, 2, 3, none⟩, 4, some 50, false, [⟨0, 0⟩, ⟨1, 0⟩]⟩
        ⟨⟨7, 8, 9, none⟩, 5, some 60, false, [⟨0, 1⟩, ⟨2, 3⟩]⟩ 0 2 = some s0 ∧
      s0.points = pa ∧ s0.colHSB.h = 1 ∧ s0.colHSB.s = 2 ∧
      s0.colHSB.b = 3 ∧ s0.thickness = 4 ∧ s0.opacity = some 50 ∧
      tweenTwoStrokes taxiDist
        ⟨⟨1, 2, 3, none⟩, 4, some 50, false, [⟨0, 0⟩, ⟨1, 0⟩]⟩
        ⟨⟨7, 8, 9, none⟩, 5, some 60, false, [⟨0, 1⟩, ⟨2, 3⟩]⟩ 1 2 = some s1 ∧
      s1.points = pb ∧ s1.colHSB.h = 7 ∧ s1.colHSB.s = 8 ∧
      s1.colHSB.b = 9 ∧ s1.thickness = 5 ∧ s1.opacity = some 60 :=
  tween_boundaries taxiDist taxiDist_nonneg
    ⟨⟨1, 2, 3, none⟩, 4, some 50, false, [⟨0, 0⟩, ⟨1, 0⟩]⟩
    ⟨⟨7, 8, 9, none⟩, 5, some 60, false, [⟨0, 1⟩, ⟨2, 3⟩]⟩ 2
    (by omega) (by simp) (by simp) (by norm_num) (by norm_num)
    50 60 rfl rfl

/-- **C7** (confirmed): for a stroke with at least 2 points,
`tweenStrokes(a, ghostFrom(a), 1, N)` is a stroke of opacity 0 whose `N`
points all equal the centroid of a's points (exactly, in `ℚ`). -/
theorem ghost_fade (d : Point → Point → ℚ) (hd : ∀ p q, 0 ≤ d p q)
    (hd0 : ∀ p, d p p = 0) (a : Stroke) (N : ℕ)
    (ha : 2 ≤ a.points.length) :
    ∃ s, tweenTwoStrokes d a (ghostFromStrokeLike a) 1 N = some s ∧
      s.opacity = some 0 ∧ s.points.length = N ∧
      ∀ p ∈ s.points, p = centroidOf a.points := by
  obtain ⟨pa, hpa, hla⟩ := resample_long hd ha N
  have hpb : resamplePointsLocal d (ghostFromStrokeLike a).points N
      = some (List.replicate (max 2 N) (centroidOf a.points)) := by
    show resamplePointsLocal d (List.replicate 20 (centroidOf a.points)) N = _
    exact resample_replicate (hd0 _) (by omega) N
  obtain ⟨s, hs, hlen, -, -, -, -, -, hop, hpt⟩ := tween_spec (t := 1) hpa hpb
    (hla ▸ le_max_right 2 N)
    (by rw [List.length_replicate]; exact le_max_right 2 N)
  refine ⟨s, hs, ?_, hlen, ?_⟩
  · rw [hop, lerpQ_one]
    rfl
  · intro p hp
    obtain ⟨j, hj, hpj⟩ := List.mem_iff_getElem.1 hp
    obtain ⟨p', q, hp', hq, hsj⟩ := hpt j (hlen ▸ hj)
    have hqc : q = centroidOf a.points := by
      have hjlt : j < max 2 N := lt_of_lt_of_le (hlen ▸ hj) (le_max_right 2 N)
      rw [List.getElem?_eq_getElem (by rwa [List.length_replicate]),
        List.getElem_replicate] at hq
      exact (Option.some.injEq _ _ ▸ hq).symm
    have hpje : s.points[j]? = some p := by
      rw [List.getElem?_eq_getElem hj, hpj]
    rw [hsj, lerpQ_one, lerpQ_one] at hpje
    have : p = (⟨q.x, q.y⟩ : Point) := by
      injection hpje with h
      exact h.symm
    rw [this, hqc]

/-- Witness for C7 at a concrete input. -/
theorem ghost_fade_witness :
    ∃ s, tweenTwoStrokes taxiDist
        ⟨⟨1, 2, 3, none⟩, 4, some 50, false, [⟨0, 0⟩, ⟨2, 2⟩]⟩
        (ghostFromStrokeLike
          ⟨⟨1, 2, 3, none⟩, 4, some 50, false, [⟨0, 0⟩, ⟨2, 2⟩]⟩) 1 3
        = some s ∧
      s.opacity = some 0 ∧ s.points.length = 3 ∧
      ∀ p ∈ s.points, p = centroidOf [⟨0, 0⟩, ⟨2, 2⟩] :=
  ghost_fade taxiDist taxiDist_nonneg taxiDist_self
    ⟨⟨1, 2, 3, none⟩, 4, some 50, false, [⟨0, 0⟩, ⟨2, 2⟩]⟩ 3 (by simp)

/-- **C9** (counterexample): the claim quantifies over *all* drawings, but
a drawing containing a non-eraser stroke with fewer than 2 points makes
`tweenDrawings` throw inside the ghost tween (out-of-bounds point read), so
no output list — of any length — exists.  Concretely `A` holds one
single-point stroke and `B` is empty. -/
theorem tweenDrawings_short_stroke_throws :
    tweenDrawingsMulti taxiDist
        [⟨⟨0, 0, 0, none⟩, 4, some 100, false, [⟨0, 0⟩]⟩] [] 0 = none ∧
    ¬ ∃ out, tweenDrawingsMulti taxiDist
        [⟨⟨0, 0, 0, none⟩, 4, some 100, false, [⟨0, 0⟩]⟩] [] 0 = some out := by
  have hghost : tweenTwoStrokes taxiDist
      ⟨⟨0, 0, 0, none⟩, 4, some 100, false, [⟨0, 0⟩]⟩
      (ghostFromStrokeLike
        ⟨⟨0, 0, 0, none⟩, 4, some 100, false, [⟨0, 0⟩]⟩) 0 40 = none := by
    have hb : resamplePointsLocal taxiDist
        (ghostFromStrokeLike
          ⟨⟨0, 0, 0, none⟩, 4, some 100, false, [⟨0, 0⟩]⟩).points 40
        = some (List.replicate (max 2 40) (centroidOf [⟨0, 0⟩])) := by
      show resamplePointsLocal taxiDist
        (List.replicate 20 (centroidOf [⟨0, 0⟩])) 40 = _
      exact resample_replicate (taxiDist_self _) (by omega) 40
    unfold tweenTwoStrokes
    rw [resample_short (by simp) 40, hb]
    simp only [Option.some_bind]
    rw [seqOpt_eq_none (a := 1) (by simp) rfl]
    rfl
  constructor
  · simp only [tweenDrawingsMulti]
    have hfilA : List.filter (fun s => !s.eraser)
        [(⟨⟨0, 0, 0, none⟩, 4, some 100, false, [⟨0, 0⟩]⟩ : Stroke)]
        = [⟨⟨0, 0, 0, none⟩, 4, some 100, false, [⟨0, 0⟩]⟩] := rfl
    have hfilB : List.filter (fun s => !s.eraser) ([] : List Stroke) = [] := rfl
    rw [hfilA, hfilB]
    have hms : matchStrokes taxiDist
        [(⟨⟨0, 0, 0, none⟩, 4, some 100, false, [⟨0, 0⟩]⟩ : Stroke)] []
        = ⟨[], [0], []⟩ := rfl
    rw [hms]
    simp only [seqOpt, Option.some_bind]
    have hget : ([(⟨⟨0, 0, 0, none⟩, 4, some 100, false, [⟨0, 0⟩]⟩ : Stroke)]).getD
        0 default = ⟨⟨0, 0, 0, none⟩, 4, some 100, false, [⟨0, 0⟩]⟩ := rfl
    rw [hget, hghost]
    rfl
  · rintro ⟨out, hout⟩
    have h1 : tweenDrawingsMulti taxiDist
        [⟨⟨0, 0, 0, none⟩, 4, some 100, false, [⟨0, 0⟩]⟩] [] 0 = none := by
      simp only [tweenDrawingsMulti]
      have hms : matchStrokes taxiDist
          [(⟨⟨0, 0, 0, none⟩, 4, some 100, false, [⟨0, 0⟩]⟩ : Stroke)] []
          = ⟨[], [0], []⟩ := rfl
      rw [show List.filter (fun s => !s.eraser)
          [(⟨⟨0, 0, 0, none⟩, 4, some 100, false, [⟨0, 0⟩]⟩ : Stroke)]
          = [⟨⟨0, 0, 0, none⟩, 4, some 100, false, [⟨0, 0⟩]⟩] from rfl,
        show List.filter (fun s => !s.eraser) ([] : List Stroke) = [] from rfl,
        hms]
      simp only [seqOpt, Option.some_bind]
      rw [show ([(⟨⟨0, 0, 0, none⟩, 4, some 100, false,
          [⟨0, 0⟩]⟩ : Stroke)]).getD 0 default
          = ⟨⟨0, 0, 0, none⟩, 4, some 100, false, [⟨0, 0⟩]⟩ from rfl, hghost]
      rfl
    rw [h1] at hout
    cases hout

/-- **C9** (amended): when every non-eraser stroke of `A` and `B` has at
least 2 points, `tweenDrawings(A, B, t)` succeeds for every `t` and its
length is (matched pairs) + (unmatched in A) + (unmatched in B), which also
equals the larger of the two eraser-filtered stroke counts. -/
theorem tweenDrawings_length (d : Point → Point → ℚ)
    (hd : ∀ p q, 0 ≤ d p q) (A B : List Stroke) (t : ℚ)
    (hA : ∀ s ∈ A, s.eraser = false → 2 ≤ s.points.length)
    (hB : ∀ s ∈ B, s.eraser = false → 2 ≤ s.points.length) :
    ∃ out, tweenDrawingsMulti d A B t = some out ∧
      out.length =
        (matchStrokes d (A.filter (fun s => !s.eraser))
            (B.filter (fun s => !s.eraser))).pairs.length
          + (matchStrokes d (A.filter (fun s => !s.eraser))
              (B.filter (fun s => !s.eraser))).unmatchedA.length
          + (matchStrokes d (A.filter (fun s => !s.eraser))
              (B.filter (fun s => !s.eraser))).unmatchedB.length ∧
      out.length = max (A.filter (fun s => !s.eraser)).length
          (B.filter (fun s => !s.eraser)).length := by
  obtain ⟨out, h1, h2⟩ := tweenDrawings_total d hd A B t hA hB
  refine ⟨out, h1, h2, ?_⟩
  rw [h2, (matchStrokes_inv d _ _).2.2.2, matchStrokes_unA_length,
    matchStrokes_unB_length]
  omega

/-- Witness for the amended C9 at a concrete input. -/
theorem tweenDrawings_length_witness :
    ∃ out, tweenDrawingsMulti taxiDist
        [⟨⟨1, 2, 3, none⟩, 4, some 50, false, [⟨0, 0⟩, ⟨1, 0⟩]⟩] [] 0
        = some out ∧
      out.length =
        (matchStrokes taxiDist
            (([⟨⟨1, 2, 3, none⟩, 4, some 50, false,
              [⟨0, 0⟩, ⟨1, 0⟩]⟩] : List Stroke).filter (fun s => !s.eraser))
            (([] : List Stroke).filter (fun s => !s.eraser))).pairs.length
          + (matchStrokes taxiDist
              (([⟨⟨1, 2, 3, none⟩, 4, some 50, false,
                [⟨0, 0⟩, ⟨1, 0⟩]⟩] : List Stroke).filter (fun s => !s.eraser))
              (([] : List Stroke).filter (fun s => !s.eraser))).unmatchedA.length
          + (matchStrokes taxiDist
              (([⟨⟨1, 2, 3, none⟩, 4, some 50, false,
                [⟨0, 0⟩, ⟨1, 0⟩]⟩] : List Stroke).filter (fun s => !s.eraser))
              (([] : List Stroke).filter (fun s => !s.eraser))).unmatchedB.length ∧
      out.length = max (([⟨⟨1, 2, 3, none⟩, 4, some 50, false,
            [⟨0, 0⟩, ⟨1, 0⟩]⟩] : List Stroke).filter (fun s => !s.eraser)).length
          (([] : List Stroke).filter (fun s => !s.eraser)).length :=
  tweenDrawings_length taxiDist taxiDist_nonneg
    [⟨⟨1, 2, 3, none⟩, 4, some 50, false, [⟨0, 0⟩, ⟨1, 0⟩]⟩] [] 0
    (by
      intro s hs he
      rw [List.mem_singleton] at hs
      subst hs
      simp)
    (by intro s hs he; simp at hs)

/-- **C2** (counterexample): the claim says the scenario (3 keyframes,
`durationMs = 900`, elapsed 300 ms) yields `segT = 1.0` and that `segT`
exactly equal to an integer stays in the lower segment.  Both parts are
false on the code: `segT = tGlobal * (n - 1) = (1/3) * 2 = 2/3 ≠ 1`, and at
`segT = 1.0` exactly, `floor` selects the upper segment
(`segmentIndex = 1`, not 0). -/
theorem seg_scenario_claim_false :
    segTOf (tGlobalOf ⟨true, 0, 900⟩ 300) 3 = 2 / 3 ∧
    segTOf (tGlobalOf ⟨true, 0, 900⟩ 300) 3 ≠ 1 ∧
    segIndexOf 1 3 = 1 ∧ segIndexOf 1 3 ≠ 0 := by
  have h1 : segTOf (tGlobalOf ⟨true, 0, 900⟩ 300) 3 = 2 / 3 := by
    unfold segTOf tGlobalOf
    norm_num
  have h2 : segIndexOf 1 3 = 1 := by
    unfold segIndexOf
    norm_num
  exact ⟨h1, by rw [h1]; norm_num, h2, by rw [h2]; norm_num⟩

/-- **C2** (amended): with 3 keyframes and `durationMs = 900`, a frame at
elapsed 300 ms has `tGlobal = 1/3`, `segT = 2/3`, segment index 0 and local
pre-easing `t = 2/3`, so the frame tweens keyframe 0 against keyframe 1 at
`2/3` (with the Linear easing); moreover `segT` exactly equal to an integer
`k` (with `k ≤ segments - 1`) selects the *upper* segment `k` (at local
edge 0), and while `segT < segments` the clamp `min(segments - 1, ·)`
never alters `floor(segT)`. -/
theorem seg_scenario (d : Point → Point → ℚ) (A B C : Drawing) :
    tGlobalOf ⟨true, 0, 900⟩ 300 = 1 / 3 ∧
    segTOf (1 / 3) 3 = 2 / 3 ∧
    segIndexOf (2 / 3) 3 = 0 ∧
    drawFrame d ⟨true, 0, 900⟩ 300 [A, B, C] "Linear"
      = (tweenDrawingsMulti d A.strokes B.strokes (2 / 3)).map
          (fun tw => (FrameResult.tweened tw, ⟨true, 0, 900⟩)) ∧
    (∀ (n k : ℕ), 1 ≤ k → (k : ℤ) ≤ (n : ℤ) - 2 →
      segIndexOf (k : ℚ) n = k) ∧
    (∀ (sT : ℚ) (n : ℕ), 2 ≤ n → sT < (n : ℚ) - 1 →
      segIndexOf sT n = ⌊sT⌋) := by
  have h1 : tGlobalOf ⟨true, 0, 900⟩ 300 = 1 / 3 := by
    unfold tGlobalOf
    norm_num
  have h2 : segTOf (1 / 3) 3 = 2 / 3 := by
    unfold segTOf
    norm_num
  have h3 : segIndexOf (2 / 3) 3 = 0 := by
    unfold segIndexOf
    norm_num
  refine ⟨h1, h2, h3, ?_, ?_, ?_⟩
  · simp only [drawFrame]
    rw [if_neg (by simp : ¬ ([A, B, C].length < 2))]
    rw [h1]
    rw [if_neg (by norm_num : ¬ ((1 : ℚ) ≤ 1 / 3))]
    have hlen : ([A, B, C] : List Drawing).length = 3 := rfl
    rw [hlen, h2, h3]
    have hease : getEase "Linear" = Easings.Linear := by
      unfold getEase
      simp
    rw [hease]
    have hc1 : constrain (2 / 3 - ((0 : ℤ) : ℚ)) 0 1 = 2 / 3 := by
      unfold constrain
      rw [min_eq_left (by push_cast; norm_num), max_eq_left (by push_cast; norm_num)]
      push_cast
      norm_num
    rw [hc1]
    have hc2 : constrain (Easings.Linear (2 / 3)) 0 1 = 2 / 3 := by
      unfold Easings.Linear constrain
      rw [min_eq_left (by norm_num), max_eq_left (by norm_num)]
    rw [hc2]
    have hA : jsIdxZ [A, B, C] (0 : ℤ) = some A := rfl
    have hB : jsIdxZ [A, B, C] ((0 : ℤ) + 1) = some B := rfl
    rw [hA, hB]
    rfl
  · intro n k hk hkn
    unfold segIndexOf
    rw [Int.floor_natCast]
    omega
  · intro sT n hn hlt
    unfold segIndexOf
    have h4 : (⌊sT⌋ : ℚ) ≤ sT := Int.floor_le sT
    have h5 : (⌊sT⌋ : ℚ) < (n : ℚ) - 1 := lt_of_le_of_lt h4 hlt
    have h6 : ⌊sT⌋ < (n : ℤ) - 1 := by
      have : ((⌊sT⌋ : ℤ) : ℚ) < (((n : ℤ) - 1 : ℤ) : ℚ) := by
        push_cast
        linarith
      exact_mod_cast this
    omega

/-- Witness for the amended C2: `segT` exactly 1 with 3 keyframes selects
segment index 1 (the upper segment). -/
theorem seg_scenario_witness :
    segIndexOf ((1 : ℕ) : ℚ) 3 = ((1 : ℕ) : ℤ) :=
  (seg_scenario taxiDist default default default).2.2.2.2.1 3 1
    (by omega) (by decide)

/-- **C3** (counterexample): the claim says every non-positive argument —
including negative numbers — makes `start` fall back to the default 10000.
False: `Number(-5) = -5` is truthy, so `start(-5)` records duration `-5`. -/
theorem start_negative_duration :
    (start (JSVal.num (-5)) 0 ⟨false, 0, 10000⟩).durationMs = -5 ∧
    (start (JSVal.num (-5)) 0 ⟨false, 0, 10000⟩).durationMs ≠ 10000 := by
  have h : (start (JSVal.num (-5)) 0 ⟨false, 0, 10000⟩).durationMs = -5 := by
    show jsNumOr (JSVal.num (-5)) 10000 = -5
    unfold jsNumOr jsToNumber
    norm_num
  exact ⟨h, by rw [h]; norm_num⟩

/-- **C3** (amended): `start(d)` always records the start time and
transitions the clock to Running; the duration falls back to the default
10000 exactly when `Number(d)` is falsy (`NaN` or `0`), and otherwise —
including for negative numbers — keeps `Number(d)` as the duration. -/
theorem start_behavior (v : JSVal) (now : ℚ) (st : AnimState) :
    (start v now st).running = true ∧
    (start v now st).startMs = now ∧
    ((jsToNumber v = none ∨ jsToNumber v = some 0) →
      (start v now st).durationMs = 10000) ∧
    (∀ q : ℚ, jsToNumber v = some q → q ≠ 0 →
      (start v now st).durationMs = q) := by
  refine ⟨rfl, rfl, ?_, ?_⟩
  · rintro (h | h) <;> simp [start, jsNumOr, h]
  · intro q hq hq0
    simp [start, jsNumOr, hq, hq0]

/-- Witness for the amended C3 at concrete inputs. -/
theorem start_behavior_witness :
    (start JSVal.nanV 0 ⟨false, 0, 0⟩).durationMs = 10000 ∧
    (start (JSVal.num 250) 0 ⟨false, 0, 0⟩).durationMs = 250 :=
  ⟨(start_behavior JSVal.nanV 0 ⟨false, 0, 0⟩).2.2.1 (Or.inl rfl),
   (start_behavior (JSVal.num 250) 0 ⟨false, 0, 0⟩).2.2.2 250 rfl
     (by norm_num)⟩

/-- **C8** (confirmed): whenever `drawFrame` runs with at least 2 keyframes
and elapsed time making `tGlobal ≥ 1`, the render callback receives the
final keyframe's strokes verbatim — no tweening — and the clock's running
flag is cleared. -/
theorem final_frame (d : Point → Point → ℚ) (st : AnimState) (now : ℚ)
    (drawings : List Drawing) (easeName : String)
    (_hr : st.running = true) (hn : 2 ≤ drawings.length)
    (ht : 1 ≤ tGlobalOf st now) :
    drawFrame d st now drawings easeName
      = some (FrameResult.final
          (drawings.getD (drawings.length - 1) default).strokes,
        { st with running := false }) := by
  unfold drawFrame
  rw [if_neg (by omega), if_pos ht]

/-- Witness for C8 at a concrete input. -/
theorem final_frame_witness :
    drawFrame taxiDist ⟨true, 0, 1000⟩ 1000 [default, default]
        "EaseInOutCubic"
      = some (FrameResult.final
          (([default, default] : List Drawing).getD
            (([default, default] : List Drawing).length - 1) default).strokes,
        { (⟨true, 0, 1000⟩ : AnimState) with running := false }) :=
  final_frame taxiDist ⟨true, 0, 1000⟩ 1000 [default, default]
    "EaseInOutCubic" rfl (by simp) (by norm_num [tGlobalOf])
